import Mathlib

/-!
Verification of the deployment CLI against its natural-language specification.

The development shallowly embeds the relevant parts of the source:

* `src/lib/config.js` — deployment history and the three JSON readers
  (`addDeployment`, `removeDeployment`, `readProjectConfig`,
  `readDeploymentHistory`, `readGlobalConfig`);
* `src/commands/deploy.js` — `sanitizeBranchName`, the preview/production
  service-name resolution, `parseEnvFile`, and the control flow of
  `deployCommand` as a function from an environment of step outcomes to a
  result plus a trace of side-effecting calls;
* `src/lib/gcp-client.js` — the log-follow polling loop (`streamLogs`);
* `src/commands/remove.js` — the control flow of `removeCommand`;
* `src/commands/list.js`, `src/commands/logs.js` — only their exit behaviour;
* `src/index.js` — the command wrappers mapping an uncaught throw to exit
  status 1 and a normal return to exit status 0.

JavaScript strings are modelled as Lean `String` (lists of characters);
machine-level details (UTF-16 code units, Unicode case folding beyond ASCII)
do not matter for any of the inputs used below.  Fallible operations are
modelled with `Except`, where `.error` corresponds to an uncaught JavaScript
throw.
-/

/-! ## JavaScript string primitives -/

/-- Embedding of the whitespace class trimmed by `String.prototype.trim`
(restricted to the ASCII whitespace actually relevant here). -/
def isJsWhitespace (c : Char) : Bool :=
  c = ' ' || c = '\t' || c = '\n' || c = '\r'

/-- Embedding of `String.prototype.trim` on character lists. -/
def jsTrimChars (l : List Char) : List Char :=
  ((l.dropWhile isJsWhitespace).reverse.dropWhile isJsWhitespace).reverse

/-- Embedding of `String.prototype.trim`. -/
def jsTrim (s : String) : String :=
  String.mk (jsTrimChars s.data)

/-- Embedding of `String.prototype.split` with a one-character separator,
on character lists.  `split` always returns at least one (possibly empty)
field. -/
def jsSplitChars (sep : Char) : List Char → List (List Char)
  | [] => [[]]
  | c :: rest =>
    let tail := jsSplitChars sep rest
    if c = sep then
      [] :: tail
    else
      match tail with
      | [] => [[c]]
      | f :: fs => (c :: f) :: fs

/-- Embedding of `String.prototype.split` with a one-character separator. -/
def jsSplit (sep : Char) (s : String) : List String :=
  (jsSplitChars sep s.data).map String.mk

/-- Embedding of `Array.prototype.join` over strings. -/
def jsJoin (sep : String) (parts : List String) : String :=
  String.intercalate sep parts

/-- Embedding of `String.prototype.toLowerCase` (ASCII case folding). -/
def jsToLower (s : String) : String :=
  String.mk (s.data.map Char.toLower)

/-- The single-quote (apostrophe) character, written by code point to keep
the development free of quote-literal pitfalls. -/
def singleQuoteChar : Char := Char.ofNat 39

/-- The double-quote character. -/
def doubleQuoteChar : Char := Char.ofNat 34

/-- Whether a character list starts with the given character
(embedding of `String.prototype.startsWith` with a one-character prefix). -/
def firstCharIs (c : Char) : List Char → Bool
  | [] => false
  | x :: _ => x = c

/-- Whether a character list ends with the given character
(embedding of `String.prototype.endsWith` with a one-character suffix). -/
def lastCharIs (c : Char) (l : List Char) : Bool :=
  firstCharIs c l.reverse

/-- Whether `pat` occurs as a contiguous substring of `l`
(embedding of `String.prototype.includes`). -/
def charsContain (pat : List Char) : List Char → Bool
  | [] => pat.isPrefixOf []
  | c :: rest => pat.isPrefixOf (c :: rest) || charsContain pat rest

/-- Embedding of `String.prototype.includes`. -/
def jsIncludes (s pat : String) : Bool :=
  charsContain pat.data s.data

/-! ## State store (`src/lib/config.js`) -/

/-- The deployment fields passed by `deployCommand` to `addDeployment`
(`serviceName`, `type`, `branch`, `url`, `image`, `region`). -/
structure DeploymentData where
  serviceName : String
  kind : String
  branch : String
  url : String
  image : String
  region : String
deriving DecidableEq, Repr

/-- One record of the persisted deployment history: the deployment data
plus the `timestamp` field that `addDeployment` attaches. -/
structure DeploymentRecord where
  data : DeploymentData
  timestamp : String
deriving DecidableEq, Repr

/-- The `deployments` array of `.gcp-deploy-history.json`. -/
abbrev DeploymentHistory := List DeploymentRecord

/-- Embedding of `addDeployment` (config.js lines 130–137): push the record,
with the current time attached, onto the end of the `deployments` array.
`now` stands for `new Date().toISOString()`. -/
def addDeployment (d : DeploymentData) (now : String) (h : DeploymentHistory) :
    DeploymentHistory :=
  h ++ [⟨d, now⟩]

/-- Embedding of `removeDeployment` (config.js lines 142–146): keep exactly
the records whose `serviceName` differs from the argument. -/
def removeDeployment (serviceName : String) (h : DeploymentHistory) :
    DeploymentHistory :=
  h.filter (fun d => d.data.serviceName ≠ serviceName)

/-- Embedding of `getDeployment` (config.js lines 151–154). -/
def getDeployment (serviceName : String) (h : DeploymentHistory) :
    Option DeploymentRecord :=
  h.find? (fun d => d.data.serviceName = serviceName)

/-- A persisted JSON file as seen by the readers in config.js: missing,
present but not valid JSON, or present with parsed content `val`. -/
inductive JsonFile (α : Type) where
  | missing : JsonFile α
  | unparseable : JsonFile α
  | parsed (val : α) : JsonFile α
deriving DecidableEq, Repr

/-- Parsed content of `gcp-deploy.json`. -/
structure ProjectConfig where
  projectId : String
  region : String
  serviceName : String
  artifactRegistry : String
deriving DecidableEq, Repr

/-- Parsed content of the global `config.json`. -/
structure GlobalConfig where
  entries : List (String × String)
deriving DecidableEq, Repr

/-- Embedding of `readProjectConfig` (config.js lines 56–69): `null` when
the file is missing, the parsed object on success, and a thrown error
(modelled as `.error`) when the file exists but `JSON.parse` fails. -/
def readProjectConfig (file : JsonFile ProjectConfig) :
    Except String (Option ProjectConfig) :=
  match file with
  | .missing => .ok none
  | .unparseable => .error "Error reading project config"
  | .parsed c => .ok (some c)

/-- Embedding of `readDeploymentHistory` (config.js lines 96–110): the empty
default both when the file is missing and when `JSON.parse` fails; never
throws. -/
def readDeploymentHistory (file : JsonFile DeploymentHistory) :
    DeploymentHistory :=
  match file with
  | .missing => []
  | .unparseable => []
  | .parsed h => h

/-- Embedding of `readGlobalConfig` (config.js lines 22–36): the empty
object both when the file is missing and when `JSON.parse` fails; never
throws. -/
def readGlobalConfig (file : JsonFile GlobalConfig) : GlobalConfig :=
  match file with
  | .missing => ⟨[]⟩
  | .unparseable => ⟨[]⟩
  | .parsed g => g

/-- Histories reachable from the empty history by `addDeployment` and
`removeDeployment` steps. -/
inductive ReachableHistory : DeploymentHistory → Prop where
  | empty : ReachableHistory []
  | add (d : DeploymentData) (now : String) {h : DeploymentHistory} :
      ReachableHistory h → ReachableHistory (addDeployment d now h)
  | remove (serviceName : String) {h : DeploymentHistory} :
      ReachableHistory h → ReachableHistory (removeDeployment serviceName h)

/-- A history in which every `serviceName` occurs in at most one record. -/
def namesUnique (h : DeploymentHistory) : Bool :=
  (h.map (fun d => d.data.serviceName)).Nodup

/-- Concrete deployment data used in counterexamples. -/
def sampleDeployment : DeploymentData :=
  ⟨"app", "production", "main", "https://app.example.run.app",
    "img:1", "us-central1"⟩

/-- Occurrences of a service name in a history. -/
def nameCount (serviceName : String) (h : DeploymentHistory) : Nat :=
  h.countP (fun d => d.data.serviceName = serviceName)

/-! ## Naming engine (`src/commands/deploy.js`) -/

/-- Characters admitted by the sanitizer character class `[a-z0-9-]`. -/
def isLowerAlnum (c : Char) : Bool :=
  ('a' ≤ c && c ≤ 'z') || ('0' ≤ c && c ≤ '9')

/-- Membership in `[a-z0-9-]`. -/
def isNameChar (c : Char) : Bool :=
  isLowerAlnum c || c = '-'

/-- Embedding of `.replace(/[^a-z0-9-]/g, '-')`. -/
def replaceDisallowed (l : List Char) : List Char :=
  l.map (fun c => if isNameChar c then c else '-')

/-- Embedding of replacing every match of the pattern `-+` (globally) with a
single hyphen: collapse every run of hyphens. -/
def collapseHyphens : List Char → List Char
  | [] => []
  | [c] => [c]
  | c₁ :: c₂ :: rest =>
    if c₁ = '-' && c₂ = '-' then collapseHyphens (c₂ :: rest)
    else c₁ :: collapseHyphens (c₂ :: rest)

/-- Embedding of deleting every match of the anchored pattern `^-+|-+$`:
remove the leading and the trailing run of hyphens. -/
def trimHyphens (l : List Char) : List Char :=
  ((l.dropWhile (fun c => c = '-')).reverse.dropWhile (fun c => c = '-')).reverse

/-- Embedding of deleting every match of the anchored pattern `-+$`: remove
the trailing run of hyphens. -/
def trimTrailingHyphens (l : List Char) : List Char :=
  (l.reverse.dropWhile (fun c => c = '-')).reverse

/-- Embedding of `sanitizeBranchName` (deploy.js lines 517–525): lowercase,
replace characters outside `[a-z0-9-]` by `-`, collapse hyphen runs, trim
leading/trailing hyphens, truncate to 30 characters, and trim any trailing
hyphens the truncation exposed. -/
def sanitizeBranchName (branch : String) : String :=
  String.mk
    (trimTrailingHyphens
      ((trimHyphens
        (collapseHyphens
          (replaceDisallowed (branch.data.map Char.toLower)))).take 30))

/-- The character set of the `nanoid` default alphabet after
`toLowerCase`: lowercase letters, digits, `-` and `_`. -/
def isNanoidLowerChar (c : Char) : Bool :=
  isLowerAlnum c || c = '-' || c = '_'

/-- Whether a string is a possible value of `nanoid(8).toLowerCase()`:
eight characters over the lowercased default alphabet. -/
def isNanoidLower8 (s : String) : Bool :=
  s.length = 8 && s.data.all isNanoidLowerChar

/-- Embedding of the preview-name composition in `deployCommand`
(deploy.js lines 661–666): join the lowercased base name, the sanitized
branch and the random suffix with hyphens, then collapse hyphen runs and
trim leading/trailing hyphens over the whole composed string. -/
def previewServiceName (base branch suffix : String) : String :=
  String.mk
    (trimHyphens
      (collapseHyphens
        (base ++ "-" ++ sanitizeBranchName branch ++ "-" ++ suffix).data))

/-- Embedding of the service-name/deployment-type resolution in
`deployCommand` (deploy.js lines 650–671).  `base` is
`config.serviceName` after the `toLowerCase()` on line 647; production
wins when `--production` is set, preview when `--preview` is set or the
branch differs from `main`, production otherwise. -/
def resolveServiceName (base : String) (optProduction optPreview : Bool)
    (branch suffix : String) : String × String :=
  if optProduction then
    (base, "production")
  else if optPreview || branch ≠ "main" then
    (previewServiceName base branch suffix, "preview")
  else
    (base, "production")

/-- The service name `deployCommand` resolves from the configured
(not yet lowercased) service name, mirroring the mutation
`config.serviceName = config.serviceName.toLowerCase()` on line 647. -/
def deployResolvedName (configuredName : String)
    (optProduction optPreview : Bool) (branch suffix : String) : String :=
  (resolveServiceName (jsToLower configuredName) optProduction optPreview
    branch suffix).1

/-- Whether production is the resolved deployment kind: explicitly
requested, or the branch equals `main` with no preview request. -/
def productionResolved (optProduction optPreview : Bool) (branch : String) :
    Bool :=
  optProduction || (!optPreview && branch = "main")

/-- The platform naming pattern `^[a-z0-9]([a-z0-9-]*[a-z0-9])?$`:
nonempty, characters drawn from `[a-z0-9-]`, first and last character
alphanumeric. -/
def matchesCloudRunName (s : String) : Bool :=
  match s.data with
  | [] => false
  | c :: rest =>
    isLowerAlnum c && (c :: rest).all isNameChar
      && isLowerAlnum ((c :: rest).getLast (by simp))

/-- Whether a character list avoids consecutive hyphens. -/
def noDoubleHyphen : List Char → Bool
  | c₁ :: c₂ :: rest => !(c₁ = '-' && c₂ = '-') && noDoubleHyphen (c₂ :: rest)
  | _ => true

/-! ## Environment loader (`parseEnvFile`, deploy.js lines 541–571) -/

/-- An environment mapping with JavaScript object semantics: assignment of
a key overrides the previous value, so the later occurrence wins. -/
abbrev EnvMap := String → Option String

/-- The empty mapping. -/
def emptyEnv : EnvMap := fun _ => none

/-- Assignment `envVars[key] = value`. -/
def setEnv (key value : String) (env : EnvMap) : EnvMap :=
  fun k => if k = key then some value else env k

/-- Embedding of the quote-removal step of `parseEnvFile` (deploy.js lines
557–560): when the value starts and ends with a double quote, or starts
and ends with a single quote, drop the first and the last character
(the JavaScript `slice(1, -1)`). -/
def stripWrappingQuotes (v : String) : String :=
  if (firstCharIs doubleQuoteChar v.data && lastCharIs doubleQuoteChar v.data)
      || (firstCharIs singleQuoteChar v.data && lastCharIs singleQuoteChar v.data) then
    String.mk ((v.data.drop 1).dropLast)
  else v

/-- Embedding of the per-line step of `parseEnvFile`: trim, skip empty and
comment lines, split on `=`, skip when the part before the first `=` is
empty, otherwise record the trimmed key with the quote-stripped trimmed
value. -/
def parseEnvLine (env : EnvMap) (line : String) : EnvMap :=
  let trimmed := jsTrim line
  if trimmed = "" || firstCharIs '#' trimmed.data then env
  else
    match jsSplit '=' trimmed with
    | [] => env
    | key :: valueParts =>
      if key = "" then env
      else
        let value := stripWrappingQuotes (jsTrim (jsJoin "=" valueParts))
        setEnv (jsTrim key) value env

/-- Embedding of `parseEnvFile` (deploy.js lines 541–571) applied to the
contents of an existing environment file. -/
def parseEnvFile (contents : String) : EnvMap :=
  (jsSplit '\n' contents).foldl parseEnvLine emptyEnv

/-- Quote removal as worded by the specification claim: strip one matching
wrapping PAIR of quotes, which requires at least two characters. -/
def stripWrappingQuotesClaim (v : String) : String :=
  if 2 ≤ v.data.length
      && ((firstCharIs doubleQuoteChar v.data && lastCharIs doubleQuoteChar v.data)
        || (firstCharIs singleQuoteChar v.data && lastCharIs singleQuoteChar v.data)) then
    String.mk ((v.data.drop 1).dropLast)
  else v

/-- The split of a trimmed line at its first `=`: the part before and the
part after (empty when the line has no `=`). -/
def splitAtFirstEq (trimmed : String) : String × String :=
  match jsSplit '=' trimmed with
  | [] => (trimmed, "")
  | key :: valueParts => (key, jsJoin "=" valueParts)

/-- Per-line parsing as worded by the specification claim (C8): every line
that is nonempty after trimming and does not start with `#` is split at
its first `=`; the trimmed key is mapped to the trimmed, pair-unquoted
value. -/
def parseEnvLineClaim (env : EnvMap) (line : String) : EnvMap :=
  let trimmed := jsTrim line
  if trimmed = "" || firstCharIs '#' trimmed.data then env
  else
    let p := splitAtFirstEq trimmed
    setEnv (jsTrim p.1) (stripWrappingQuotesClaim (jsTrim p.2)) env

/-- The environment parser as worded by the specification claim (C8). -/
def parseEnvFileClaim (contents : String) : EnvMap :=
  (jsSplit '\n' contents).foldl parseEnvLineClaim emptyEnv

/-- Quote removal as amended: as the claim words it, except that a value
consisting of exactly one quote character (where the start-quote and the
end-quote are the same character) is reduced to the empty string. -/
def stripWrappingQuotesAmended (v : String) : String :=
  if v = String.mk [doubleQuoteChar] || v = String.mk [singleQuoteChar] then ""
  else stripWrappingQuotesClaim v

/-- Per-line parsing as amended: as the claim words it, except that a line
whose part before the first `=` is empty (in particular a line starting
with `=`, and a line with no `=` and no visible text is already skipped by
the emptiness test) produces no entry, and the quote removal follows
`stripWrappingQuotesAmended`. -/
def parseEnvLineAmended (env : EnvMap) (line : String) : EnvMap :=
  let trimmed := jsTrim line
  if trimmed = "" || firstCharIs '#' trimmed.data then env
  else
    let p := splitAtFirstEq trimmed
    if p.1 = "" then env
    else setEnv (jsTrim p.1) (stripWrappingQuotesAmended (jsTrim p.2)) env

/-- The environment parser as amended (C8). -/
def parseEnvFileAmended (contents : String) : EnvMap :=
  (jsSplit '\n' contents).foldl parseEnvLineAmended emptyEnv

/-! ## Deployment pipeline (`deployCommand`, deploy.js lines 633–829) -/

/-- The side-effecting calls `deployCommand` can make, in program order.
The retag to `:latest` and the push of the `:latest` tag appear in the
trace, but their success or failure is ignored by the source (the retag
result is unchecked on line 729, the latest-push result on line 739), so
no outcome for them appears in the environment below. -/
inductive DeployEffect where
  | configureDockerAuth
  | buildImage
  | tagLatest
  | pushImage
  | pushLatest
  | gcloudRunDeploy
  | fetchServiceUrl
  | recordHistory
deriving DecidableEq, Repr

/-- The outcomes of the external steps a single `deployCommand` run can
encounter, together with its inputs.  `configFile` combines the
`isProjectInitialized` existence test with the `readProjectConfig` parse;
`suffix` is the value of `nanoid(8).toLowerCase()`; `serviceUrl = none`
models the service-URL lookup throwing. -/
structure DeployEnv where
  configFile : JsonFile ProjectConfig
  optProduction : Bool
  optPreview : Bool
  optBranch : Option String
  gitBranch : String
  suffix : String
  dockerRunning : Bool
  gcloudAuthed : Bool
  dockerAuthOk : Bool
  envFile : Option String
  buildTimestamp : Nat
  buildOk : Bool
  pushOk : Bool
  deployOk : Bool
  serviceUrl : Option String
  now : String

/-- Embedding of the control flow of `deployCommand`: the result is the
deployment history after the run and the trace of side-effecting calls
made, with `.error` marking an uncaught throw (which only
`readProjectConfig` can produce).  Every failure handled by an early
`return` in the source yields `.ok` with the truncated trace. -/
def deployRun (env : DeployEnv) (h : DeploymentHistory) :
    Except String (DeploymentHistory × List DeployEffect) :=
  match env.configFile with
  | .missing => .ok (h, [])
  | .unparseable => .error "Error reading project config"
  | .parsed config =>
    let base := jsToLower config.serviceName
    let branchName := env.optBranch.getD env.gitBranch
    let resolved :=
      resolveServiceName base env.optProduction env.optPreview branchName env.suffix
    let serviceName := resolved.1
    let deploymentType := resolved.2
    if !env.dockerRunning then .ok (h, [])
    else if !env.gcloudAuthed then .ok (h, [])
    else if !env.dockerAuthOk then .ok (h, [.configureDockerAuth])
    else
      let _envVars := parseEnvFile (env.envFile.getD "")
      let imageTag :=
        config.artifactRegistry ++ "/" ++ serviceName ++ ":"
          ++ toString env.buildTimestamp
      if !env.buildOk then .ok (h, [.configureDockerAuth, .buildImage])
      else if !env.pushOk then
        .ok (h, [.configureDockerAuth, .buildImage, .tagLatest, .pushImage])
      else if !env.deployOk then
        .ok (h, [.configureDockerAuth, .buildImage, .tagLatest, .pushImage,
          .pushLatest, .gcloudRunDeploy])
      else
        match env.serviceUrl with
        | none =>
          .ok (h, [.configureDockerAuth, .buildImage, .tagLatest, .pushImage,
            .pushLatest, .gcloudRunDeploy, .fetchServiceUrl])
        | some url =>
          let record : DeploymentData :=
            ⟨serviceName, deploymentType, branchName, url, imageTag, config.region⟩
          .ok (addDeployment record env.now h,
            [.configureDockerAuth, .buildImage, .tagLatest, .pushImage,
              .pushLatest, .gcloudRunDeploy, .fetchServiceUrl, .recordHistory])

/-- The process exit status produced by the command wrappers in
`src/index.js`: 1 when the handler throws, 0 when it returns. -/
def exitCodeOf {α : Type} : Except String α → Nat
  | .ok _ => 0
  | .error _ => 1

/-- Exit status of a `deploy` invocation. -/
def deployExitCode (env : DeployEnv) (h : DeploymentHistory) : Nat :=
  exitCodeOf (deployRun env h)

/-! ## Log-follow polling (`GCPClient.streamLogs`, gcp-client.js lines 196–218) -/

/-- A log entry: its timestamp (milliseconds) and a payload identifying
the entry. -/
structure LogEntry where
  ts : Nat
  payload : Nat
deriving DecidableEq, Repr

/-- The mutable state of the follow-mode loop: the `lastTimestamp`
watermark and the sequence of entries handed to the callback so far. -/
structure FollowState where
  lastTimestamp : Nat
  delivered : List LogEntry
deriving DecidableEq, Repr

/-- The polling cadence passed to `setInterval` (gcp-client.js line 215). -/
def logPollIntervalMs : Nat := 2000

/-- The entries one `getEntries` call returns: the backend entries (listed
in ascending timestamp order) whose timestamp satisfies the filter
`timestamp >= lastTimestamp`, truncated to the page size of 100. -/
def fetchedEntries (available : List LogEntry) (st : FollowState) :
    List LogEntry :=
  (available.filter (fun e => st.lastTimestamp ≤ e.ts)).take 100

/-- Embedding of one tick of the `setInterval` body: deliver every fetched
entry to the callback, then set the watermark to the timestamp of the last
fetched entry; when nothing is fetched, both components are unchanged. -/
def pollOnce (available : List LogEntry) (st : FollowState) : FollowState :=
  let entries := fetchedEntries available st
  match entries.getLast? with
  | none => st
  | some last => ⟨last.ts, st.delivered ++ entries⟩

/-- The follow-mode state after `n` ticks. -/
def pollIterate (available : List LogEntry) (st : FollowState) :
    Nat → FollowState
  | 0 => st
  | n + 1 => pollIterate available (pollOnce available st) n

/-- Occurrences of one entry in the delivered sequence. -/
def deliveredCount (e : LogEntry) (st : FollowState) : Nat :=
  st.delivered.count e

/-! ## Remove command (`removeCommand`, remove.js lines 10–108) -/

/-- Result of `getService` as `removeCommand` observes it: a descriptor,
`null` (the NOT_FOUND code 5 is mapped to `null` in gcp-client.js lines
122–134), or a throw carrying a message. -/
inductive GetServiceOutcome where
  | found
  | notFound
  | failed (msg : String)
deriving DecidableEq, Repr

/-- Result of `deleteService`: success or a throw carrying a message. -/
inductive DeleteServiceOutcome where
  | ok
  | failed (msg : String)
deriving DecidableEq, Repr

/-- Inputs and external outcomes of one `removeCommand` run.  `target` is
the required `<deployment>` argument (the empty string models the missing
argument); `confirmed` combines `--yes` with the interactive answer. -/
structure RemoveEnv where
  configFile : JsonFile ProjectConfig
  target : String
  confirmed : Bool
  getServiceOutcome : GetServiceOutcome
  deleteOutcome : DeleteServiceOutcome

/-- Observable result of a `removeCommand` run that did not throw: the
deployment history it leaves behind, and the error message it printed from
its catch block (`none` when no failure was reported there). -/
structure RemoveResult where
  history : DeploymentHistory
  surfacedError : Option String
deriving DecidableEq, Repr

/-- Embedding of the control flow of `removeCommand`: early returns for a
missing project config, a missing argument and a declined confirmation;
then `getService`; a `null` descriptor removes the local record and
returns; otherwise `deleteService` followed by local removal; any throw is
caught, its message printed, and the local record is additionally removed
when the message contains `404` (remove.js lines 66–107).  The wrapped
messages reproduce the prefixes added in gcp-client.js. -/
def removeRun (env : RemoveEnv) (h : DeploymentHistory) :
    Except String RemoveResult :=
  match env.configFile with
  | .missing => .ok ⟨h, none⟩
  | .unparseable =>
    if env.target = "" then .ok ⟨h, none⟩
    else .error "Error reading project config"
  | .parsed _ =>
    if env.target = "" then .ok ⟨h, none⟩
    else if !env.confirmed then .ok ⟨h, none⟩
    else
      match env.getServiceOutcome with
      | .notFound => .ok ⟨removeDeployment env.target h, none⟩
      | .failed m =>
        let msg := "Failed to get service: " ++ m
        if jsIncludes msg "404" then .ok ⟨removeDeployment env.target h, some msg⟩
        else .ok ⟨h, some msg⟩
      | .found =>
        match env.deleteOutcome with
        | .ok => .ok ⟨removeDeployment env.target h, none⟩
        | .failed m =>
          let msg := "Failed to delete service: " ++ m
          if jsIncludes msg "404" then
            .ok ⟨removeDeployment env.target h, some msg⟩
          else .ok ⟨h, some msg⟩

/-- Exit status of a `remove` invocation. -/
def removeExitCode (env : RemoveEnv) (h : DeploymentHistory) : Nat :=
  exitCodeOf (removeRun env h)

/-! ## List and logs commands (exit behaviour only) -/

/-- Inputs of one `listCommand` run: the project config file and the
outcome of the remote service listing (every failure inside the body is
caught by the handler). -/
structure ListEnv where
  configFile : JsonFile ProjectConfig
  remoteListOutcome : Except String (List String)

/-- Embedding of the control flow of `listCommand` (list.js): the handler
returns the error message it printed, or `none`; it throws only from
`readProjectConfig`. -/
def listRun (env : ListEnv) : Except String (Option String) :=
  match env.configFile with
  | .missing => .ok none
  | .unparseable => .error "Error reading project config"
  | .parsed _ =>
    match env.remoteListOutcome with
    | .ok _ => .ok none
    | .error m => .ok (some m)

/-- Exit status of a `list` invocation. -/
def listExitCode (env : ListEnv) : Nat :=
  exitCodeOf (listRun env)

/-- Inputs of one `logsCommand` run. -/
structure LogsEnv where
  configFile : JsonFile ProjectConfig
  optDeployment : Option String
  historyHasProduction : Bool
  streamOutcome : Except String Unit

/-- Embedding of the control flow of `logsCommand` (logs.js): early return
when no deployment is named and none is recorded; stream failures are
caught and printed; it throws only from `readProjectConfig`. -/
def logsRun (env : LogsEnv) : Except String (Option String) :=
  match env.configFile with
  | .missing => .ok none
  | .unparseable => .error "Error reading project config"
  | .parsed _ =>
    if env.optDeployment = none && !env.historyHasProduction then .ok none
    else
      match env.streamOutcome with
      | .ok _ => .ok none
      | .error m => .ok (some m)

/-- Exit status of a `logs` invocation that terminates. -/
def logsExitCode (env : LogsEnv) : Nat :=
  exitCodeOf (logsRun env)

/-! ## Concrete sample values used in counterexamples and witnesses -/

/-- A second concrete deployment, with a service name different from
`sampleDeployment`, used in witnesses. -/
def previewSample : DeploymentData :=
  ⟨"app-feat-x-ab12cd34", "preview", "feat/x", "https://p.example.run.app",
    "img:2", "us-central1"⟩

/-- A concrete parsed project configuration. -/
def sampleConfig : ProjectConfig :=
  ⟨"proj-123", "us-central1", "app",
    "us-central1-docker.pkg.dev/proj-123/cloud-run-source-deploy"⟩

/-- A deploy run in which every step up to the image build succeeds and
the build fails. -/
def buildFailEnv : DeployEnv :=
  ⟨.parsed sampleConfig, true, false, none, "main", "ab12cd34",
    true, true, true, none, 111, false, true, true,
    some "https://app.example.run.app", "2024-01-01T00:00:00Z"⟩

/-- A deploy run in which the container engine is not running. -/
def dockerDownEnv : DeployEnv :=
  ⟨.parsed sampleConfig, true, false, none, "main", "ab12cd34",
    false, true, true, none, 111, true, true, true,
    some "https://app.example.run.app", "2024-01-01T00:00:00Z"⟩

/-- A remove run whose remote lookup reports the service absent. -/
def removeNotFoundEnv : RemoveEnv :=
  ⟨.parsed sampleConfig, "app-feat-x-ab12cd34", true, .notFound, .ok⟩

/-! ## Helper lemmas -/

theorem jsSplitChars_ne_nil (sep : Char) (l : List Char) :
    jsSplitChars sep l ≠ [] := by
  cases l with
  | nil => simp [jsSplitChars]
  | cons c rest =>
    unfold jsSplitChars
    dsimp only
    split
    · simp
    · split <;> simp

theorem jsSplit_ne_nil (sep : Char) (s : String) : jsSplit sep s ≠ [] := by
  unfold jsSplit
  intro h
  exact jsSplitChars_ne_nil sep s.data (List.map_eq_nil_iff.mp h)

theorem stripWrappingQuotes_eq_amended (v : String) :
    stripWrappingQuotes v = stripWrappingQuotesAmended v := by
  obtain ⟨l⟩ := v
  rcases l with _ | ⟨c, _ | ⟨c₂, rest⟩⟩
  · decide
  · unfold stripWrappingQuotes stripWrappingQuotesAmended stripWrappingQuotesClaim
    by_cases hdq : c = doubleQuoteChar
    · subst hdq
      simp [firstCharIs, lastCharIs]
    · by_cases hsq : c = singleQuoteChar
      · subst hsq
        simp [firstCharIs, lastCharIs, singleQuoteChar, doubleQuoteChar]
      · have hcond :
            ¬(String.mk [c] = String.mk [doubleQuoteChar]
              ∨ String.mk [c] = String.mk [singleQuoteChar]) := by
          simp [String.ext_iff, hdq, hsq]
        simp [firstCharIs, lastCharIs, hdq, hsq, hcond]
  · unfold stripWrappingQuotes stripWrappingQuotesAmended stripWrappingQuotesClaim
    have hcond :
        ¬(String.mk (c :: c₂ :: rest) = String.mk [doubleQuoteChar]
          ∨ String.mk (c :: c₂ :: rest) = String.mk [singleQuoteChar]) := by
      simp [String.ext_iff]
    have hlen : 2 ≤ (String.mk (c :: c₂ :: rest)).data.length := by
      simp
    simp [hcond, hlen]

theorem parseEnvLine_eq_amended (env : EnvMap) (line : String) :
    parseEnvLine env line = parseEnvLineAmended env line := by
  unfold parseEnvLine parseEnvLineAmended splitAtFirstEq
  dsimp only
  by_cases hskip :
      (jsTrim line = "" || firstCharIs '#' (jsTrim line).data) = true
  · simp [hskip]
  · simp only [hskip, if_false]
    cases hsp : jsSplit '=' (jsTrim line) with
    | nil => exact absurd hsp (jsSplit_ne_nil '=' (jsTrim line))
    | cons k ps =>
      dsimp only
      by_cases hk : k = ""
      · simp [hk]
      · simp [hk, stripWrappingQuotes_eq_amended]

theorem deployRun_parsed_isOk (env : DeployEnv) (h : DeploymentHistory)
    (c : ProjectConfig) (hc : env.configFile = .parsed c) :
    ∃ r, deployRun env h = .ok r := by
  unfold deployRun
  rw [hc]
  dsimp only
  repeat' split
  all_goals exact ⟨_, rfl⟩

theorem removeRun_parsed_isOk (env : RemoveEnv) (h : DeploymentHistory)
    (c : ProjectConfig) (hc : env.configFile = .parsed c) :
    ∃ r, removeRun env h = .ok r := by
  unfold removeRun
  rw [hc]
  dsimp only
  repeat' split
  all_goals exact ⟨_, rfl⟩

theorem collapseHyphens_sublist (l : List Char) :
    List.Sublist (collapseHyphens l) l := by
  induction l with
  | nil => simp [collapseHyphens]
  | cons c rest ih =>
    cases rest with
    | nil => simp [collapseHyphens]
    | cons c₂ rest₂ =>
      unfold collapseHyphens
      split
      · exact ih.trans (List.sublist_cons_self c (c₂ :: rest₂))
      · exact ih.cons₂ c

theorem collapseHyphens_head? (c : Char) (l : List Char) :
    (collapseHyphens (c :: l)).head? = some c := by
  induction l generalizing c with
  | nil => simp [collapseHyphens]
  | cons c₂ rest ih =>
    unfold collapseHyphens
    split
    · rename_i hcc
      simp only [Bool.and_eq_true, decide_eq_true_eq] at hcc
      rw [ih c₂, hcc.1, hcc.2]
    · simp

theorem chain_collapseHyphens (l : List Char) :
    (collapseHyphens l).Chain' (fun a b => ¬(a = '-' ∧ b = '-')) := by
  induction l with
  | nil => simp [collapseHyphens]
  | cons c rest ih =>
    cases rest with
    | nil => simp [collapseHyphens]
    | cons c₂ rest₂ =>
      unfold collapseHyphens
      split
      · exact ih
      · rename_i hcc
        simp only [Bool.and_eq_true, decide_eq_true_eq, not_and] at hcc
        rw [List.chain'_cons']
        refine ⟨?_, ih⟩
        intro b hb
        rw [collapseHyphens_head? c₂ rest₂] at hb
        simp only [Option.mem_def, Option.some.injEq] at hb
        subst hb
        exact fun hcon => hcc hcon.1 hcon.2

theorem noDoubleHyphen_iff_chain (l : List Char) :
    noDoubleHyphen l = true
      ↔ l.Chain' (fun a b => ¬(a = '-' ∧ b = '-')) := by
  induction l with
  | nil => simp [noDoubleHyphen]
  | cons c rest ih =>
    cases rest with
    | nil => simp [noDoubleHyphen]
    | cons c₂ rest₂ =>
      rw [List.chain'_cons]
      unfold noDoubleHyphen
      rw [Bool.and_eq_true, ih]
      apply and_congr_left
      intro _
      constructor
      · intro hb
        simp only [Bool.not_eq_true', Bool.and_eq_false_iff,
          decide_eq_false_iff_not] at hb
        tauto
      · intro hp
        simp only [Bool.not_eq_true', Bool.and_eq_false_iff,
          decide_eq_false_iff_not]
        tauto

theorem filter_collapseHyphens (q : Char → Bool) (hq : q '-' = false)
    (l : List Char) : (collapseHyphens l).filter q = l.filter q := by
  induction l with
  | nil => rfl
  | cons c rest ih =>
    cases rest with
    | nil => rfl
    | cons c₂ rest₂ =>
      unfold collapseHyphens
      split
      · rename_i hcc
        simp only [Bool.and_eq_true, decide_eq_true_eq] at hcc
        rw [ih, hcc.1]
        symm
        rw [List.filter_cons_of_neg]
        simp [hq]
      · rw [List.filter_cons, List.filter_cons, ih]

theorem filter_dropWhileHyphen (q : Char → Bool) (hq : q '-' = false)
    (l : List Char) :
    ((l.dropWhile (fun c => c = '-')).filter q) = l.filter q := by
  have hsplit := List.takeWhile_append_dropWhile
    (fun c : Char => decide (c = '-')) l
  conv_rhs => rw [← hsplit]
  rw [List.filter_append]
  have htake : ((l.takeWhile (fun c : Char => decide (c = '-'))).filter q)
      = [] := by
    rw [List.filter_eq_nil_iff]
    intro a ha
    have := List.mem_takeWhile_imp ha
    simp only [decide_eq_true_eq] at this
    rw [this]
    simp [hq]
  rw [htake, List.nil_append]

theorem head?_dropWhile_not (p : Char → Bool) (l : List Char) (c : Char)
    (h : (l.dropWhile p).head? = some c) : p c = false := by
  induction l with
  | nil => simp [List.dropWhile] at h
  | cons a rest ih =>
    rw [List.dropWhile_cons] at h
    split at h
    · exact ih h
    · rename_i hpa
      simp only [List.head?_cons, Option.some.injEq] at h
      subst h
      simpa using hpa

theorem getLast?_dropWhile_of_ne_nil (p : Char → Bool) (l : List Char)
    (h : l.dropWhile p ≠ []) : (l.dropWhile p).getLast? = l.getLast? := by
  have hsplit := List.takeWhile_append_dropWhile p l
  conv_rhs => rw [← hsplit]
  rw [List.getLast?_append_of_ne_nil _ h]

theorem mem_trimHyphens (x : Char) (l : List Char) (h : x ∈ trimHyphens l) :
    x ∈ l := by
  unfold trimHyphens at h
  rw [List.mem_reverse] at h
  have h1 := (List.dropWhile_suffix
    (fun c : Char => decide (c = '-'))).sublist.subset h
  rw [List.mem_reverse] at h1
  exact (List.dropWhile_suffix
    (fun c : Char => decide (c = '-'))).sublist.subset h1

theorem mem_trimTrailingHyphens (x : Char) (l : List Char)
    (h : x ∈ trimTrailingHyphens l) : x ∈ l := by
  unfold trimTrailingHyphens at h
  rw [List.mem_reverse] at h
  have h1 := (List.dropWhile_suffix
    (fun c : Char => decide (c = '-'))).sublist.subset h
  rw [List.mem_reverse] at h1
  exact h1

theorem trimHyphens_chain (l : List Char)
    (h : l.Chain' (fun a b => ¬(a = '-' ∧ b = '-'))) :
    (trimHyphens l).Chain' (fun a b => ¬(a = '-' ∧ b = '-')) := by
  unfold trimHyphens
  have h1 := h.suffix (List.dropWhile_suffix (fun c : Char => decide (c = '-')))
  have h2 : ((l.dropWhile (fun c : Char => decide (c = '-'))).reverse).Chain'
      (fun a b => ¬(a = '-' ∧ b = '-')) := by
    rw [List.chain'_reverse]
    exact h1.imp (fun a b hab hc => hab ⟨hc.2, hc.1⟩)
  have h3 := h2.suffix (List.dropWhile_suffix (fun c : Char => decide (c = '-')))
  rw [List.chain'_reverse]
  exact h3.imp (fun a b hab hc => hab ⟨hc.2, hc.1⟩)

theorem trimHyphens_filter (q : Char → Bool) (hq : q '-' = false)
    (l : List Char) : (trimHyphens l).filter q = l.filter q := by
  unfold trimHyphens
  rw [List.filter_reverse, filter_dropWhileHyphen q hq, List.filter_reverse,
    filter_dropWhileHyphen q hq, List.reverse_reverse]

theorem trimHyphens_head_not (l : List Char) (c : Char)
    (h : (trimHyphens l).head? = some c) : (c = '-') = False := by
  unfold trimHyphens at h
  rw [List.head?_reverse] at h
  have hne : (l.dropWhile (fun c : Char => decide (c = '-'))).reverse.dropWhile
      (fun c : Char => decide (c = '-')) ≠ [] := by
    intro he
    rw [he] at h
    simp at h
  rw [getLast?_dropWhile_of_ne_nil _ _ hne, List.getLast?_reverse] at h
  have := head?_dropWhile_not _ _ _ h
  simpa using this

theorem trimHyphens_last_not (l : List Char) (c : Char)
    (h : (trimHyphens l).getLast? = some c) : (c = '-') = False := by
  unfold trimHyphens at h
  rw [List.getLast?_reverse] at h
  have := head?_dropWhile_not _ _ _ h
  simpa using this

theorem isLowerAlnum_of_isNameChar (c : Char) (h : isNameChar c = true)
    (hne : ¬c = '-') : isLowerAlnum c = true := by
  unfold isNameChar at h
  rcases Bool.or_eq_true_iff.mp h with h1 | h1
  · exact h1
  · exact absurd (by simpa using h1) hne

theorem normalized_valid (comp : List Char)
    (hall : comp.all isNameChar = true)
    (hany : comp.any isLowerAlnum = true) :
    matchesCloudRunName (String.mk (trimHyphens (collapseHyphens comp))) = true
    ∧ noDoubleHyphen (trimHyphens (collapseHyphens comp)) = true := by
  have hq : isLowerAlnum '-' = false := by decide
  have hchain : (trimHyphens (collapseHyphens comp)).Chain'
      (fun a b => ¬(a = '-' ∧ b = '-')) :=
    trimHyphens_chain _ (chain_collapseHyphens comp)
  have hnd : noDoubleHyphen (trimHyphens (collapseHyphens comp)) = true :=
    (noDoubleHyphen_iff_chain _).mpr hchain
  have hfilter : (trimHyphens (collapseHyphens comp)).filter isLowerAlnum
      = comp.filter isLowerAlnum := by
    rw [trimHyphens_filter _ hq, filter_collapseHyphens _ hq]
  have hfilter_ne : comp.filter isLowerAlnum ≠ [] := by
    rw [Ne, List.filter_eq_nil_iff]
    rw [List.any_eq_true] at hany
    obtain ⟨x, hx, hqx⟩ := hany
    intro hcon
    exact hcon x hx (by simp [hqx])
  have hr_ne : trimHyphens (collapseHyphens comp) ≠ [] := by
    intro he
    rw [he] at hfilter
    exact hfilter_ne (by rw [← hfilter]; rfl)
  have hr_all : (trimHyphens (collapseHyphens comp)).all isNameChar = true := by
    rw [List.all_eq_true]
    intro x hx
    have hx1 := mem_trimHyphens _ _ hx
    have hx2 := (collapseHyphens_sublist comp).subset hx1
    exact List.all_eq_true.mp hall x hx2
  refine ⟨?_, hnd⟩
  obtain ⟨c, rest, hr_eq⟩ : ∃ c rest,
      trimHyphens (collapseHyphens comp) = c :: rest := by
    cases hcase : trimHyphens (collapseHyphens comp) with
    | nil => exact absurd hcase hr_ne
    | cons c rest => exact ⟨c, rest, rfl⟩
  have hhead : (trimHyphens (collapseHyphens comp)).head? = some c := by
    rw [hr_eq]; rfl
  have hc_not := trimHyphens_head_not _ _ hhead
  have hc_mem : c ∈ trimHyphens (collapseHyphens comp) := by
    rw [hr_eq]
    exact List.mem_cons_self c rest
  have hc_name : isNameChar c = true := List.all_eq_true.mp hr_all c hc_mem
  have hc_alnum : isLowerAlnum c = true :=
    isLowerAlnum_of_isNameChar c hc_name (by rw [hc_not]; exact id)
  have hlast_eq := List.getLast?_eq_getLast_of_ne_nil hr_ne
  have hd_not := trimHyphens_last_not _ _ hlast_eq
  have hd_mem : (trimHyphens (collapseHyphens comp)).getLast hr_ne
      ∈ trimHyphens (collapseHyphens comp) := List.getLast_mem hr_ne
  have hd_name := List.all_eq_true.mp hr_all _ hd_mem
  have hd_alnum : isLowerAlnum
      ((trimHyphens (collapseHyphens comp)).getLast hr_ne) = true :=
    isLowerAlnum_of_isNameChar _ hd_name (by rw [hd_not]; exact id)
  unfold matchesCloudRunName
  have hdata : (String.mk (trimHyphens (collapseHyphens comp))).data
      = c :: rest := hr_eq
  rw [hdata]
  dsimp only
  rw [Bool.and_eq_true, Bool.and_eq_true]
  refine ⟨⟨hc_alnum, ?_⟩, ?_⟩
  · rw [← hr_eq]
    exact hr_all
  · have hgl : (c :: rest).getLast (by simp)
        = (trimHyphens (collapseHyphens comp)).getLast hr_ne := by
      congr 1
      · exact hr_eq.symm
    rw [hgl]
    exact hd_alnum

theorem replaceDisallowed_all (l : List Char) :
    (replaceDisallowed l).all isNameChar = true := by
  rw [List.all_eq_true]
  intro x hx
  unfold replaceDisallowed at hx
  rw [List.mem_map] at hx
  obtain ⟨a, _, ha⟩ := hx
  by_cases h : isNameChar a = true
  · rw [if_pos h] at ha
    rw [← ha]
    exact h
  · rw [if_neg h] at ha
    rw [← ha]
    decide

theorem sanitizeBranchName_all (branch : String) :
    (sanitizeBranchName branch).data.all isNameChar = true := by
  rw [List.all_eq_true]
  intro x hx
  have hx1 : x ∈ trimTrailingHyphens ((trimHyphens (collapseHyphens
      (replaceDisallowed (branch.data.map Char.toLower)))).take 30) := hx
  have hx2 := mem_trimTrailingHyphens _ _ hx1
  have hx3 := List.take_subset _ _ hx2
  have hx4 := mem_trimHyphens _ _ hx3
  have hx5 := (collapseHyphens_sublist _).subset hx4
  exact List.all_eq_true.mp (replaceDisallowed_all _) x hx5

/-- When the random suffix stays inside `[a-z0-9-]` (that is, `nanoid`
happened to emit no underscore) and the lowercased base name is drawn from
`[a-z0-9-]` with at least one alphanumeric character somewhere in base or
suffix, the composed preview name is a valid platform name with no
consecutive hyphens — so the underscore of the `nanoid` alphabet is the
only way the naming pipeline can break the platform pattern. -/
theorem previewServiceName_valid (base branch suffix : String)
    (hbase : base.data.all isNameChar = true)
    (hsuffix : suffix.data.all isNameChar = true)
    (halnum : (base.data ++ suffix.data).any isLowerAlnum = true) :
    matchesCloudRunName (previewServiceName base branch suffix) = true
    ∧ noDoubleHyphen (previewServiceName base branch suffix).data = true := by
  have hall : (base ++ "-" ++ sanitizeBranchName branch ++ "-"
      ++ suffix).data.all isNameChar = true := by
    simp only [String.data_append, List.all_append, Bool.and_eq_true]
    refine ⟨⟨⟨⟨hbase, by decide⟩, sanitizeBranchName_all branch⟩, by decide⟩,
      hsuffix⟩
  have hany : (base ++ "-" ++ sanitizeBranchName branch ++ "-"
      ++ suffix).data.any isLowerAlnum = true := by
    simp only [String.data_append, List.any_append, Bool.or_eq_true]
    rw [List.any_append, Bool.or_eq_true] at halnum
    rcases halnum with h | h
    · exact Or.inl (Or.inl (Or.inl (Or.inl h)))
    · exact Or.inr h
  exact normalized_valid _ hall hany

/-- Instantiation of `previewServiceName_valid` at a concrete base, branch
and underscore-free suffix. -/
theorem previewServiceName_valid_example :
    matchesCloudRunName (previewServiceName "app" "feature/X" "ab12cd34") = true
    ∧ noDoubleHyphen (previewServiceName "app" "feature/X" "ab12cd34").data
        = true :=
  previewServiceName_valid "app" "feature/X" "ab12cd34" (by decide) (by decide)
    (by decide)

/-! ## Claim C1 -/

/-- Claim C1 (code bug): the claim states that the random suffix is an
8-character lowercase alphanumeric string and that every derived preview
service name matches the platform pattern with no consecutive hyphens.
The source draws the suffix from `nanoid(8).toLowerCase()`, whose default
alphabet also contains `-` and `_`; a suffix containing `_` is a possible
`nanoid` output, survives the hyphen normalization unchanged, and yields a
service name that fails the platform pattern.  This theorem evaluates the
embedded pipeline at such a failing input. -/
theorem claim1_nanoid_suffix_breaks_platform_name :
    isNanoidLower8 "a_bcdefg" = true
    ∧ previewServiceName "app" "x" "a_bcdefg" = "app-x-a_bcdefg"
    ∧ matchesCloudRunName "app-x-a_bcdefg" = false := by
  refine ⟨by decide, by decide, by decide⟩

/-! ## Claim C2 -/

/-- Claim C2, counterexample: the history reached from the empty history by
adding the same deployment twice is reachable, yet it holds two records
with the same `serviceName` — `addDeployment` appends unconditionally and
never supersedes an existing record. -/
theorem claim2_counterexample :
    ReachableHistory
      (addDeployment sampleDeployment "t2"
        (addDeployment sampleDeployment "t1" []))
    ∧ namesUnique
        (addDeployment sampleDeployment "t2"
          (addDeployment sampleDeployment "t1" []))
        = false :=
  ⟨ReachableHistory.add sampleDeployment "t2"
      (ReachableHistory.add sampleDeployment "t1" ReachableHistory.empty),
    by decide⟩

/-- Claim C2 as amended: `addDeployment` always increases the number of
records carrying its service name by one (it appends rather than
supersedes), and `removeDeployment` removes every record with the given
name, so a name is absent right after its removal. -/
theorem claim2_amended (d : DeploymentData) (now : String)
    (h : DeploymentHistory) (n : String) :
    nameCount d.serviceName (addDeployment d now h)
      = nameCount d.serviceName h + 1
    ∧ nameCount n (removeDeployment n h) = 0 := by
  constructor
  · simp [nameCount, addDeployment, List.countP_append]
  · simp [nameCount, removeDeployment, List.countP_filter]

/-! ## Claim C3 -/

/-- Claim C3, counterexample: starting from a history that already holds a
record named `app`, adding another `app` record and then removing `app`
yields the empty history, not the original one — `removeDeployment`
filters out every record with the name, including the pre-existing one. -/
theorem claim3_counterexample :
    removeDeployment sampleDeployment.serviceName
        (addDeployment sampleDeployment "t2" [⟨sampleDeployment, "t1"⟩]) = []
    ∧ ([] : DeploymentHistory) ≠ [⟨sampleDeployment, "t1"⟩] := by
  constructor
  · decide
  · decide

/-- Claim C3 as amended: when the starting history holds no record with the
added record's service name, `addDeployment` followed by
`removeDeployment` of that name restores exactly the original history,
order preserved. -/
theorem claim3_amended (d : DeploymentData) (now : String)
    (h : DeploymentHistory)
    (hfresh : ∀ r ∈ h, r.data.serviceName ≠ d.serviceName) :
    removeDeployment d.serviceName (addDeployment d now h) = h := by
  unfold removeDeployment addDeployment
  rw [List.filter_append]
  have h1 : h.filter (fun r => r.data.serviceName ≠ d.serviceName) = h :=
    List.filter_eq_self.mpr (by intro a ha; simpa using hfresh a ha)
  have h2 : (([⟨d, now⟩] : DeploymentHistory)).filter
      (fun r => r.data.serviceName ≠ d.serviceName) = [] := by simp
  rw [h1, h2, List.append_nil]

/-- Witness for `claim3_amended` at a concrete fresh history. -/
theorem claim3_witness :
    removeDeployment sampleDeployment.serviceName
      (addDeployment sampleDeployment "t2" [⟨previewSample, "t0"⟩])
      = [⟨previewSample, "t0"⟩] :=
  claim3_amended sampleDeployment "t2" [⟨previewSample, "t0"⟩] (by decide)

/-! ## Claim C4 -/

/-- Claim C4, counterexample: a deploy run that reaches the build step and
fails there is handled by an early `return` inside the handler, so the
wrapper in `src/index.js` never sees a throw and the process exits 0 —
an unrecovered build failure with exit status zero. -/
theorem claim4_counterexample :
    buildFailEnv.buildOk = false
    ∧ deployRun buildFailEnv []
        = .ok ([], [.configureDockerAuth, .buildImage])
    ∧ deployExitCode buildFailEnv [] = 0 := by
  refine ⟨rfl, rfl, rfl⟩

/-- Claim C4 as amended: a command exits with status 1 exactly when its
handler throws, which happens precisely when the project configuration
file exists but holds unparseable JSON (for `remove`, only after the
required argument guard); every step failure the handlers catch —
preflight, build, push, deploy, remote listing, remote deletion, log
streaming — is printed and the process exits 0. -/
theorem claim4_amended (denv : DeployEnv) (dh : DeploymentHistory)
    (renv : RemoveEnv) (rh : DeploymentHistory) (lenv : ListEnv)
    (genv : LogsEnv) :
    (deployExitCode denv dh = 1 ↔ denv.configFile = JsonFile.unparseable)
    ∧ (removeExitCode renv rh = 1 ↔
        renv.configFile = JsonFile.unparseable ∧ renv.target ≠ "")
    ∧ (listExitCode lenv = 1 ↔ lenv.configFile = JsonFile.unparseable)
    ∧ (logsExitCode genv = 1 ↔ genv.configFile = JsonFile.unparseable) := by
  refine ⟨?_, ?_, ?_, ?_⟩
  · cases hcf : denv.configFile with
    | missing =>
      unfold deployExitCode deployRun
      rw [hcf]
      simp [exitCodeOf]
    | unparseable =>
      unfold deployExitCode deployRun
      rw [hcf]
      simp [exitCodeOf]
    | parsed c =>
      obtain ⟨r, hr⟩ := deployRun_parsed_isOk denv dh c hcf
      unfold deployExitCode
      rw [hr]
      simp [exitCodeOf]
  · cases hcf : renv.configFile with
    | missing =>
      unfold removeExitCode removeRun
      rw [hcf]
      simp [exitCodeOf]
    | unparseable =>
      unfold removeExitCode removeRun
      rw [hcf]
      by_cases ht : renv.target = ""
      · simp [ht, exitCodeOf]
      · simp [ht, exitCodeOf]
    | parsed c =>
      obtain ⟨r, hr⟩ := removeRun_parsed_isOk renv rh c hcf
      unfold removeExitCode
      rw [hr]
      simp [exitCodeOf]
  · cases hcf : lenv.configFile with
    | missing =>
      unfold listExitCode listRun
      rw [hcf]
      simp [exitCodeOf]
    | unparseable =>
      unfold listExitCode listRun
      rw [hcf]
      simp [exitCodeOf]
    | parsed c =>
      unfold listExitCode listRun
      rw [hcf]
      cases lenv.remoteListOutcome <;> simp [exitCodeOf]
  · cases hcf : genv.configFile with
    | missing =>
      unfold logsExitCode logsRun
      rw [hcf]
      simp [exitCodeOf]
    | unparseable =>
      unfold logsExitCode logsRun
      rw [hcf]
      simp [exitCodeOf]
    | parsed c =>
      unfold logsExitCode logsRun
      rw [hcf]
      dsimp only
      split
      · simp [exitCodeOf]
      · cases genv.streamOutcome <;> simp [exitCodeOf]

/-! ## Claim C5 -/

/-- Claim C5, counterexample: with one backend entry of timestamp 5 and a
watermark of 3, the first tick delivers the entry and sets the watermark
to 5; the next fetch filters with `timestamp >= 5`, so the same entry is
fetched and delivered a second time — a log entry is delivered to the
callback twice. -/
theorem claim5_counterexample :
    deliveredCount ⟨5, 0⟩ (pollIterate [⟨5, 0⟩] ⟨3, []⟩ 2) = 2 := by
  decide

/-- Claim C5 as amended: the poller fires on a fixed 2-second interval,
every fetched entry has a timestamp at least the current watermark (the
watermark is the inclusive lower bound of the fetch), all fetched entries
are delivered in order, and the watermark is set to the timestamp of the
last fetched entry — it is monotonically non-decreasing rather than
strictly increasing, which is why the boundary entry can be re-delivered. -/
theorem claim5_amended (available : List LogEntry) (st : FollowState)
    (e : LogEntry) (he : e ∈ fetchedEntries available st) :
    logPollIntervalMs = 2000
    ∧ st.lastTimestamp ≤ e.ts
    ∧ st.lastTimestamp ≤ (pollOnce available st).lastTimestamp
    ∧ (pollOnce available st).delivered
        = st.delivered ++ fetchedEntries available st
    ∧ (pollOnce available st).lastTimestamp
        = (((fetchedEntries available st).getLast?).map LogEntry.ts).getD
            st.lastTimestamp := by
  have hbound : ∀ x ∈ fetchedEntries available st, st.lastTimestamp ≤ x.ts := by
    intro x hx
    have hx2 : x ∈ (available.filter (fun a => st.lastTimestamp ≤ a.ts)) :=
      List.take_subset _ _ hx
    simpa using List.of_mem_filter hx2
  have hne : fetchedEntries available st ≠ [] := List.ne_nil_of_mem he
  obtain ⟨last, hlast⟩ :
      ∃ l, (fetchedEntries available st).getLast? = some l := by
    cases hg : (fetchedEntries available st).getLast? with
    | none => exact absurd (List.getLast?_eq_none_iff.mp hg) hne
    | some l => exact ⟨l, rfl⟩
  refine ⟨rfl, hbound e he, ?_, ?_, ?_⟩
  · unfold pollOnce
    dsimp only
    rw [hlast]
    exact hbound last (List.mem_of_mem_getLast? hlast)
  · unfold pollOnce
    dsimp only
    rw [hlast]
  · unfold pollOnce
    dsimp only
    rw [hlast]
    simp

/-- Witness for `claim5_amended` at a concrete poll state. -/
theorem claim5_witness :
    logPollIntervalMs = 2000
    ∧ (⟨3, []⟩ : FollowState).lastTimestamp ≤ (⟨5, 0⟩ : LogEntry).ts
    ∧ (⟨3, []⟩ : FollowState).lastTimestamp
        ≤ (pollOnce [⟨5, 0⟩] ⟨3, []⟩).lastTimestamp
    ∧ (pollOnce [⟨5, 0⟩] ⟨3, []⟩).delivered
        = (⟨3, []⟩ : FollowState).delivered ++ fetchedEntries [⟨5, 0⟩] ⟨3, []⟩
    ∧ (pollOnce [⟨5, 0⟩] ⟨3, []⟩).lastTimestamp
        = (((fetchedEntries [⟨5, 0⟩] ⟨3, []⟩).getLast?).map LogEntry.ts).getD
            (⟨3, []⟩ : FollowState).lastTimestamp :=
  claim5_amended [⟨5, 0⟩] ⟨3, []⟩ ⟨5, 0⟩ (by decide)

/-! ## Claim C6 -/

/-- Claim C6: with an initialized project, a provided target and a
confirmed prompt — when the remote service is reported absent before
deletion (`getService` returns null), the local record is removed and the
run completes without a throw; when deletion fails with a message
containing `404`, the local record is likewise removed; when deletion
fails for any other reason, the history is returned untouched and the
error message is surfaced; and after removal no record with the target
name remains. -/
theorem claim6_remove_contract (env : RemoveEnv) (h : DeploymentHistory)
    (c : ProjectConfig) (hc : env.configFile = .parsed c)
    (htarget : env.target ≠ "") (hconf : env.confirmed = true) :
    (env.getServiceOutcome = .notFound →
      removeRun env h = .ok ⟨removeDeployment env.target h, none⟩)
    ∧ (∀ m, env.getServiceOutcome = .found → env.deleteOutcome = .failed m →
        jsIncludes ("Failed to delete service: " ++ m) "404" = true →
        removeRun env h
          = .ok ⟨removeDeployment env.target h,
              some ("Failed to delete service: " ++ m)⟩)
    ∧ (∀ m, env.getServiceOutcome = .found → env.deleteOutcome = .failed m →
        jsIncludes ("Failed to delete service: " ++ m) "404" = false →
        removeRun env h = .ok ⟨h, some ("Failed to delete service: " ++ m)⟩)
    ∧ getDeployment env.target (removeDeployment env.target h) = none := by
  have hget : getDeployment env.target (removeDeployment env.target h)
      = none := by
    unfold getDeployment removeDeployment
    rw [List.find?_eq_none]
    intro a ha
    have := List.of_mem_filter ha
    simpa using this
  refine ⟨?_, ?_, ?_, hget⟩
  · intro hnf
    unfold removeRun
    rw [hc, hnf]
    simp [htarget, hconf]
  · intro m hf hd h404
    unfold removeRun
    rw [hc, hf, hd]
    simp [htarget, hconf, h404]
  · intro m hf hd h404
    unfold removeRun
    rw [hc, hf, hd]
    simp [htarget, hconf, h404]

/-- Witness for `claim6_remove_contract` on the not-found path. -/
theorem claim6_witness :
    removeRun removeNotFoundEnv [⟨previewSample, "t0"⟩]
      = .ok ⟨removeDeployment "app-feat-x-ab12cd34" [⟨previewSample, "t0"⟩],
          none⟩ :=
  (claim6_remove_contract removeNotFoundEnv [⟨previewSample, "t0"⟩]
    sampleConfig rfl (by decide) rfl).1 rfl

/-! ## Claim C7 -/

/-- Claim C7: when the project is initialized and its configuration parses
but the container engine is not running or the platform CLI is not
authenticated, `deployCommand` returns with the history unchanged and an
empty effect trace — no registry-auth, build, tag, push, deploy, URL or
history-recording call is made. -/
theorem claim7_preflight_frame (env : DeployEnv) (h : DeploymentHistory)
    (c : ProjectConfig) (hc : env.configFile = .parsed c)
    (hfail : env.dockerRunning = false ∨ env.gcloudAuthed = false) :
    deployRun env h = .ok (h, []) := by
  unfold deployRun
  rw [hc]
  rcases hfail with hf | hf
  · simp [hf]
  · by_cases hd : env.dockerRunning = true
    · simp [hd, hf]
    · simp only [Bool.not_eq_true] at hd
      simp [hd]

/-- Witness for `claim7_preflight_frame` with the engine down. -/
theorem claim7_witness :
    deployRun dockerDownEnv [] = .ok ([], []) :=
  claim7_preflight_frame dockerDownEnv [] sampleConfig rfl (Or.inl rfl)

/-! ## Claim C8 -/

/-- Claim C8, counterexample: the claim-worded parser and the source parser
disagree.  A line starting with `=` (empty part before the first `=`) is
skipped by the source (`if (key)`) but would map the empty key under the
claim wording; and a value consisting of a single double quote is stripped
to the empty string by the source (its start-quote and end-quote tests
both look at the same character), while the claim wording requires a
matching pair of at least two characters and would leave it unchanged. -/
theorem claim8_counterexample :
    parseEnvFile "=x" "" = none
    ∧ parseEnvFileClaim "=x" "" = some "x"
    ∧ parseEnvFile "K=\"" "K" = some ""
    ∧ parseEnvFileClaim "K=\"" "K" = some "\"" := by
  refine ⟨by decide, by decide, by decide, by decide⟩

/-- Claim C8 as amended: the source parser agrees with the claim-worded
parser on every input once the wording adds that lines whose part before
the first `=` is empty are skipped, and that a value that is exactly one
quote character is reduced to the empty string.  Totality, comment/blank
skipping, splitting at the first `=`, trimming, quote-pair stripping and
later-occurrence-wins are all inherited from this equivalence. -/
theorem claim8_amended (contents key : String) :
    parseEnvFile contents key = parseEnvFileAmended contents key := by
  unfold parseEnvFile parseEnvFileAmended
  have hfold : ∀ (lines : List String) (env : EnvMap),
      lines.foldl parseEnvLine env = lines.foldl parseEnvLineAmended env := by
    intro lines
    induction lines with
    | nil => intro env; rfl
    | cons a as ih =>
      intro env
      rw [List.foldl_cons, List.foldl_cons, parseEnvLine_eq_amended]
      exact ih _
  rw [hfold]

/-! ## Claim C9 -/

/-- Claim C9, counterexample: `deployCommand` lowercases the configured
service name before resolving the deployment, so a production deploy of a
configuration naming the service `MyApp` uses `myapp`, not exactly the
configured base name. -/
theorem claim9_counterexample :
    deployResolvedName "MyApp" true false "main" "ab12cd34" = "myapp"
    ∧ "myapp" ≠ "MyApp" := by
  refine ⟨by decide, by decide⟩

/-- Claim C9 as amended: whenever production is the resolved kind
(explicitly requested, or branch `main` with no preview request), the
deployed service name is exactly the lowercased configured base name, with
no sanitization or suffix; in particular it equals the configured name
whenever that name is already lowercase. -/
theorem claim9_amended (configuredName branch suffix : String)
    (optProduction optPreview : Bool)
    (hprod : productionResolved optProduction optPreview branch = true) :
    deployResolvedName configuredName optProduction optPreview branch suffix
      = jsToLower configuredName
    ∧ (jsToLower configuredName = configuredName →
        deployResolvedName configuredName optProduction optPreview branch
          suffix = configuredName) := by
  unfold productionResolved at hprod
  simp only [Bool.or_eq_true, Bool.and_eq_true, Bool.not_eq_true',
    decide_eq_true_eq] at hprod
  unfold deployResolvedName resolveServiceName
  rcases hprod with hp | ⟨hnp, hb⟩
  · simp [hp]
  · constructor
    · by_cases hp : optProduction = true
      · simp [hp]
      · simp only [Bool.not_eq_true] at hp
        simp [hp, hnp, hb]
    · intro hlow
      by_cases hp : optProduction = true
      · simp [hp, hlow]
      · simp only [Bool.not_eq_true] at hp
        simp [hp, hnp, hb, hlow]

/-- Witness for `claim9_amended` at an explicit production deploy. -/
theorem claim9_witness :
    deployResolvedName "my-app" true false "dev" "ab12cd34"
      = jsToLower "my-app"
    ∧ (jsToLower "my-app" = "my-app" →
        deployResolvedName "my-app" true false "dev" "ab12cd34" = "my-app") :=
  claim9_amended "my-app" "dev" "ab12cd34" true false (by decide)

/-! ## Claim C10 -/

/-- Claim C10: a project configuration file that exists but holds
unparseable JSON makes `readProjectConfig` throw (it returns neither null
nor a default), while the deployment-history and global-preferences
readers swallow the parse failure and return their empty defaults. -/
theorem claim10_unparseable_readers :
    readProjectConfig JsonFile.unparseable
      = .error "Error reading project config"
    ∧ readDeploymentHistory JsonFile.unparseable = []
    ∧ readGlobalConfig JsonFile.unparseable = ⟨[]⟩ :=
  ⟨rfl, rfl, rfl⟩
